import Mathlib

/-
A shallow embedding of the agreement bot policy cache and change-detection
registry (agreementbot/policy_manager.go), together with proofs about its
change-detection, served-set replacement, deletion-cascade and error
behavior.

Go maps are embedded as association lists whose list order models one
iteration order of the map; Go map reads, writes and deletes become
first-match lookup, in-place replace-or-append, and key filtering.
Mutation through pointers (entries stored as *BusinessPolicyEntry) is made
explicit by writing the mutated entry back into the containing map.
The wall clock (time.Now().Unix()) is threaded in as an explicit argument.
-/

namespace AgreementBot

/-- Modelled from the spec: the served triplet record
`exchange.ServedBusinessPolicy` (policy org, policy name or the wildcard,
node org), whose definition lives outside src/. -/
structure ServedBusinessPolicy where
  businessPolOrg : String
  businessPol : String
  nodeOrg : String
deriving DecidableEq

/-- Modelled from the spec: the internal matchable policy form
(`policy.Policy`), outside src/; only its header name and its canonical
serialized content are observable to the policy manager. -/
structure Policy where
  headerName : String
  content : String
deriving DecidableEq

/-- Modelled from the spec: an externally-sourced business policy
definition (`businesspolicy.BusinessPolicy`), outside src/. `content` is
its canonical serialized byte form (what `json.Marshal` produces), `valid`
is whether `Validate()` succeeds, and `convertible` is whether
`GenPolicyFromBusinessPolicy` succeeds. -/
structure BusinessPolicy where
  content : String
  valid : Bool
  convertible : Bool
deriving DecidableEq

/-- Modelled from the spec: `exchange.ExchangeBusinessPolicy`, outside
src/; `GetBusinessPolicy()` returns the wrapped business policy. -/
structure ExchangeBusinessPolicy where
  pol : BusinessPolicy
deriving DecidableEq

/-- The cached record of one service policy (`ServicePolicyEntry`). -/
structure ServicePolicyEntry where
  policy : Policy
  updated : Nat
  hash : String
deriving DecidableEq

/-- The cached record of one business policy (`BusinessPolicyEntry`):
its converted internal form, last-updated time, content hash, and the
keyed sub-collection of service policy entries. Entries stored in the
registry are never nil pointers, so the model stores them directly. -/
structure BusinessPolicyEntry where
  policy : Policy
  updated : Nat
  hash : String
  servicePolicies : List (String × ServicePolicyEntry)
deriving DecidableEq

/-- Go map read: the value stored under a key in an association list. -/
def lookupA {α : Type} : List (String × α) → String → Option α
  | [], _ => none
  | p :: rest, k => if p.1 == k then some p.2 else lookupA rest k

/-- Go map write: replace the value stored under the key, or append a new
binding when the key is absent. -/
def insertA {α : Type} : List (String × α) → String → α → List (String × α)
  | [], k, v => [(k, v)]
  | p :: rest, k, v => if p.1 == k then (k, v) :: rest else p :: insertA rest k v

/-- Go map delete: remove every binding for the key. -/
def eraseA {α : Type} : List (String × α) → String → List (String × α)
  | [], _ => []
  | p :: rest, k => if p.1 == k then eraseA rest k else p :: eraseA rest k

/-- The key set of an association list. -/
def keysA {α : Type} (m : List (String × α)) : List String :=
  m.map Prod.fst

/-- The function hashPolicy from policy_manager.go: SHA3-256 over
`json.Marshal p`. `json.Marshal` of the exchange policy struct cannot
fail, and the digest is modelled as the canonical serialized content
itself: an injective idealization of SHA3-256 over the canonical
encoding, per the spec section on the Content Hasher. -/
def hashPolicy (p : BusinessPolicy) : String :=
  p.content

/-- Modelled from the spec: `pol.GenPolicyFromBusinessPolicy(polId)`,
outside src/; validates nothing itself here, converts the external
definition into the internal matchable form or fails. -/
def genPolicyFromBusinessPolicy (pol : BusinessPolicy) (polId : String) : Except String Policy :=
  if pol.convertible then Except.ok ⟨polId, pol.content⟩
  else Except.error "Failed to convert the business policy to internal policy format"

/-- Modelled from the spec: `policy.MarshalPolicy`, outside src/;
serializes an internal policy. `json.Marshal` on the internal policy
struct cannot fail, so the model makes it total. -/
def marshalPolicy (p : Policy) : String :=
  p.headerName ++ ":" ++ p.content

/-- The constructor NewBusinessPolicyEntry: stamp the time, hash the
definition, then validate and convert it; any failure aborts with an
error and no entry is produced. -/
def NewBusinessPolicyEntry (pol : BusinessPolicy) (polId : String) (now : Nat) :
    Except String BusinessPolicyEntry :=
  if !pol.valid then Except.error "Failed to validate the business policy"
  else
    match genPolicyFromBusinessPolicy pol polId with
    | Except.error e => Except.error e
    | Except.ok p => Except.ok ⟨p, now, hashPolicy pol, []⟩

/-- The method BusinessPolicyEntry.UpdateEntry: overwrite the hash, reset
the timestamp and clear the service-policy sub-collection first, then
validate and convert; on failure the entry keeps its previous internal
policy but the earlier field writes stay applied (the receiver is mutated
through a pointer before validation runs). -/
def UpdateEntry (p : BusinessPolicyEntry) (pol : BusinessPolicy) (polId : String)
    (newHash : String) (now : Nat) : BusinessPolicyEntry × Except String Policy :=
  let p1 : BusinessPolicyEntry := { p with hash := newHash, updated := now, servicePolicies := [] }
  if !pol.valid then (p1, Except.error "Failed to validate the business policy")
  else
    match genPolicyFromBusinessPolicy pol polId with
    | Except.error e => (p1, Except.error e)
    | Except.ok pPolicy => ({ p1 with policy := pPolicy }, Except.ok pPolicy)

/-- Lifecycle events pushed on the outbound notification channel
(events.NewPolicyChangedMessage / events.NewPolicyDeletedMessage,
modelled from the spec): name, org and the serialized internal policy. -/
inductive EventMsg where
  | policyChanged (name org serializedPolicy : String)
  | policyDeleted (name org serializedPolicy : String)
deriving DecidableEq

/-- The PolicyManager state: the served-triplet table (keyed by the
triplet exchange id) and the two-level org to policy-name to entry map.
The event channel is modelled by returning the list of emitted events
from each mutation. -/
structure PolicyManager where
  servedPolicies : List (String × ServedBusinessPolicy)
  orgPolicies : List (String × List (String × BusinessPolicyEntry))
deriving DecidableEq

/-- The method hasOrg. -/
def hasOrg (pm : PolicyManager) (org : String) : Bool :=
  (lookupA pm.orgPolicies org).isSome

/-- The method hasBusinessPolicy. -/
def hasBusinessPolicy (pm : PolicyManager) (org polName : String) : Bool :=
  match lookupA pm.orgPolicies org with
  | some m => (lookupA m polName).isSome
  | none => false

/-- The org's inner policy map (empty when the org is untracked). -/
def orgMapOf (pm : PolicyManager) (org : String) : List (String × BusinessPolicyEntry) :=
  (lookupA pm.orgPolicies org).getD []

/-- The method GetAllBusinessPolicyEntriesForOrg: returns the org's inner
map (in Go, the internal map reference itself), or nil when untracked. -/
def GetAllBusinessPolicyEntriesForOrg (pm : PolicyManager) (org : String) :
    Option (List (String × BusinessPolicyEntry)) :=
  lookupA pm.orgPolicies org

/-- The method GetAllPolicyOrgs. -/
def GetAllPolicyOrgs (pm : PolicyManager) : List String :=
  keysA pm.orgPolicies

/-- The method serveBusinessPolicy: does some served triplet name this
policy org with this exact policy name or the wildcard. -/
def serveBusinessPolicy (pm : PolicyManager) (polOrg polName : String) : Bool :=
  pm.servedPolicies.any fun kv =>
    kv.2.businessPolOrg == polOrg && (kv.2.businessPol == polName || kv.2.businessPol == "*")

/-- The method serveOrg: does some served triplet name this policy org. -/
def serveOrg (pm : PolicyManager) (polOrg : String) : Bool :=
  pm.servedPolicies.any fun kv => kv.2.businessPolOrg == polOrg

/-- The method GetServedNodeOrgs, written exactly as the Go loop: walk the
served triplets, and for each match append its node org, defaulting an
empty node org to the policy org. -/
def GetServedNodeOrgs (pm : PolicyManager) (polOrg polName : String) : List String :=
  pm.servedPolicies.foldl
    (fun acc kv =>
      if kv.2.businessPolOrg == polOrg && (kv.2.businessPol == polName || kv.2.businessPol == "*") then
        acc ++ [if kv.2.nodeOrg == "" then kv.2.businessPolOrg else kv.2.nodeOrg]
      else acc)
    []

/-- Everything after the first slash of a composite id. -/
def getIdAux : List Char → Option (List Char)
  | [] => none
  | c :: rest => if c = '/' then some rest else getIdAux rest

/-- Modelled from the spec: `exchange.GetId`, outside src/; strips the
org-qualifier from an `org/name` composite id, returning the id unchanged
when it has no qualifier. -/
def GetId (polId : String) : String :=
  match getIdAux polId.toList with
  | some rest => String.mk rest
  | none => polId

/-- The method deleteOrg: emit one PolicyDeleted event per entry cached
under the org (in Go best-effort on serialization failure, which cannot
happen in the model), then remove the org key. The Go function returns an
error but every path returns nil, so the model returns the new state and
the emitted events. -/
def deleteOrg (pm : PolicyManager) (orgIn : String) : PolicyManager × List EventMsg :=
  let evs :=
    match lookupA pm.orgPolicies orgIn with
    | some orgMap =>
        orgMap.map fun kv =>
          EventMsg.policyDeleted kv.2.policy.headerName orgIn (marshalPolicy kv.2.policy)
    | none => []
  ({ pm with orgPolicies := eraseA pm.orgPolicies orgIn }, evs)

/-- The method deleteBusinessPolicy: emit one PolicyDeleted event for the
named entry if present, then remove it from the org's map. Go returns an
error but every path returns nil. -/
def deleteBusinessPolicy (pm : PolicyManager) (org polName : String) :
    PolicyManager × List EventMsg :=
  match lookupA pm.orgPolicies org with
  | none => (pm, [])
  | some orgMap =>
    match lookupA orgMap polName with
    | none => (pm, [])
    | some pe =>
      ({ pm with orgPolicies := insertA pm.orgPolicies org (eraseA orgMap polName) },
       [EventMsg.policyDeleted pe.policy.headerName org (marshalPolicy pe.policy)])

/-- The body of the first loop of SetCurrentBusinessPolicies: create an
empty policy map for each newly appearing served org. -/
def addOrgStep (acc : PolicyManager) (kv : String × ServedBusinessPolicy) : PolicyManager :=
  if hasOrg acc kv.2.businessPolOrg then acc
  else { acc with orgPolicies := acc.orgPolicies ++ [(kv.2.businessPolOrg, [])] }

/-- The body of the second loop of SetCurrentBusinessPolicies: cascade
delete each tracked org that is no longer served, accumulating events. -/
def pruneOrgStep (st : PolicyManager × List EventMsg) (org : String) :
    PolicyManager × List EventMsg :=
  if serveOrg st.1 org then st
  else
    let r := deleteOrg st.1 org
    (r.1, st.2 ++ r.2)

/-- The method SetCurrentBusinessPolicies: no-op when the old and new
served sets are both empty, else whole-map replace the served-triplet
table, create empty policy maps for new orgs, then cascade delete every
org no longer served. The second loop iterates over the key set as it
stood when the loop started; Go range skips keys deleted during
iteration, and each iteration deletes at most the visited key. Go returns
an error but every path returns nil. -/
def SetCurrentBusinessPolicies (pm : PolicyManager)
    (servedPols : List (String × ServedBusinessPolicy)) : PolicyManager × List EventMsg :=
  if pm.servedPolicies.isEmpty && servedPols.isEmpty then (pm, [])
  else
    let pm1 : PolicyManager := { pm with servedPolicies := servedPols }
    let pm2 := servedPols.foldl addOrgStep pm1
    (keysA pm2.orgPolicies).foldl pruneOrgStep (pm2, [])

/-- The result of UpdatePolicies: the new state, the events emitted on
the channel before the call returned, and the returned error (none models
a nil Go error). -/
structure UpdateResult where
  pm : PolicyManager
  events : List EventMsg
  err : Option String
deriving DecidableEq

/-- The body of the pruning loop of UpdatePolicies: delete the cached
policy when this agent no longer serves it or no defined id resolves to
its name. -/
def prunePolicyStep (org : String) (definedPolicies : List (String × ExchangeBusinessPolicy))
    (st : PolicyManager × List EventMsg) (polName : String) : PolicyManager × List EventMsg :=
  if !(serveBusinessPolicy st.1 org polName
        && definedPolicies.any fun kv => GetId kv.1 == polName) then
    let r := deleteBusinessPolicy st.1 org polName
    (r.1, st.2 ++ r.2)
  else st

/-- The reconcile loop of UpdatePolicies: for each defined policy, skip it
when unserved; update the cached entry when its content hash changed,
writing the mutated entry back (pointer mutation) and emitting one
PolicyChanged event, aborting with the error on a failed update; create a
new entry when none is cached, aborting with the error on a failed
construction. Hashing itself cannot fail in the model, so the Go hash
error branch is dead. -/
def reconcile (org : String) (now : Nat) :
    List (String × ExchangeBusinessPolicy) → PolicyManager → UpdateResult
  | [], pm => ⟨pm, [], none⟩
  | (polId, exPol) :: rest, pm =>
    let pol := exPol.pol
    let name := GetId polId
    if !serveBusinessPolicy pm org name then reconcile org now rest pm
    else
      match lookupA (orgMapOf pm org) name with
      | some pe =>
        let newHash := hashPolicy pol
        if pe.hash == newHash then reconcile org now rest pm
        else
          let r := UpdateEntry pe pol polId newHash now
          let pmNext : PolicyManager :=
            { pm with orgPolicies := insertA pm.orgPolicies org (insertA (orgMapOf pm org) name r.1) }
          match r.2 with
          | Except.error e => ⟨pmNext, [], some e⟩
          | Except.ok newPol =>
            let res := reconcile org now rest pmNext
            ⟨res.pm,
             EventMsg.policyChanged newPol.headerName org (marshalPolicy newPol) :: res.events,
             res.err⟩
      | none =>
        match NewBusinessPolicyEntry pol polId now with
        | Except.error e => ⟨pm, [], some e⟩
        | Except.ok newPE =>
          reconcile org now rest
            { pm with orgPolicies := insertA pm.orgPolicies org (insertA (orgMapOf pm org) name newPE) }

/-- The method UpdatePolicies: fail when the org is untracked; cascade
delete the org when the definition set is empty; otherwise prune cached
policies that are unserved or undefined, then reconcile the defined
policies against the cache. -/
def UpdatePolicies (pm : PolicyManager) (org : String)
    (definedPolicies : List (String × ExchangeBusinessPolicy)) (now : Nat) : UpdateResult :=
  if !hasOrg pm org then ⟨pm, [], some ("org " ++ org ++ " not found in policy manager")⟩
  else if definedPolicies.isEmpty then
    let r := deleteOrg pm org
    ⟨r.1, r.2, none⟩
  else
    let pruned :=
      (keysA (orgMapOf pm org)).foldl (prunePolicyStep org definedPolicies)
        (pm, ([] : List EventMsg))
    let res := reconcile org now definedPolicies pruned.1
    ⟨res.pm, pruned.2 ++ res.events, res.err⟩

/-- A registry state tracking one org with one cached policy entry, with
an arbitrary served-triplet table. -/
def singleEntryPM (sps : List (String × ServedBusinessPolicy)) (org name : String)
    (pe : BusinessPolicyEntry) : PolicyManager :=
  ⟨sps, [(org, [(name, pe)])]⟩

/-- A registry state tracking one org with two cached policy entries. -/
def twoEntryPM (sps : List (String × ServedBusinessPolicy)) (org n1 : String)
    (pe1 : BusinessPolicyEntry) (n2 : String) (pe2 : BusinessPolicyEntry) : PolicyManager :=
  ⟨sps, [(org, [(n1, pe1), (n2, pe2)])]⟩

/-- The spec wording for `ServedNodeOrgsFor(org, name)`: the node orgs of
exactly those served triplets whose policy org equals the given org and
whose policy name equals the given name or is the wildcard, substituting
the policy org for every matching triplet whose node-org field is empty. -/
def servedNodeOrgsSpec (pm : PolicyManager) (polOrg polName : String) : List String :=
  (pm.servedPolicies.filter fun kv =>
      kv.2.businessPolOrg == polOrg && (kv.2.businessPol == polName || kv.2.businessPol == "*")).map
    fun kv => if kv.2.nodeOrg == "" then kv.2.businessPolOrg else kv.2.nodeOrg

/-- Recognizer for PolicyDeleted events of a given org. -/
def deletedFor (x : String) : EventMsg → Bool
  | EventMsg.policyDeleted _ o _ => o == x
  | EventMsg.policyChanged _ _ _ => false

/-- The change-detection property of C1, for a registry tracking `org`
with the single cached entry `pe` under `name`, re-ingesting the single
definition `newDef` under the composite id `polId`: an unchanged content
hash makes the whole call a no-op emitting nothing, while a changed hash
emits exactly one PolicyChanged event carrying the serialized new
internal policy and stores the new definition's hash. -/
def ChangeDetectionClaim (sps : List (String × ServedBusinessPolicy)) (org name polId : String)
    (pe : BusinessPolicyEntry) (newDef : BusinessPolicy) (now : Nat) : Prop :=
  (pe.hash = hashPolicy newDef →
    UpdatePolicies (singleEntryPM sps org name pe) org [(polId, ⟨newDef⟩)] now =
      ⟨singleEntryPM sps org name pe, [], none⟩) ∧
  (pe.hash ≠ hashPolicy newDef →
    ∃ newPol,
      genPolicyFromBusinessPolicy newDef polId = Except.ok newPol ∧
      (UpdatePolicies (singleEntryPM sps org name pe) org [(polId, ⟨newDef⟩)] now).events =
        [EventMsg.policyChanged newPol.headerName org (marshalPolicy newPol)] ∧
      lookupA (orgMapOf (UpdatePolicies (singleEntryPM sps org name pe) org [(polId, ⟨newDef⟩)] now).pm org) name =
        some ⟨newPol, now, hashPolicy newDef, []⟩ ∧
      (UpdatePolicies (singleEntryPM sps org name pe) org [(polId, ⟨newDef⟩)] now).err = none)

/-- The hash invariant of C4, for the same single-entry scenario: after
the call returns, error or not, the stored hash equals the hash of the
last ingested definition, and it moved away from the previous hash
exactly when the ingested content changed. -/
def HashReflectsClaim (sps : List (String × ServedBusinessPolicy)) (org name polId : String)
    (pe : BusinessPolicyEntry) (oldDef newDef : BusinessPolicy) (now : Nat) : Prop :=
  ∃ peAfter,
    lookupA (orgMapOf (UpdatePolicies (singleEntryPM sps org name pe) org [(polId, ⟨newDef⟩)] now).pm org) name =
      some peAfter ∧
    peAfter.hash = hashPolicy newDef ∧
    (peAfter.hash = pe.hash ↔ hashPolicy newDef = hashPolicy oldDef)

/-- The partial-application property of C5, for a registry tracking `org`
with the two cached entries `pe1` and `pe2`, updated by two definitions of
which the first succeeds with changed content and the second fails: the
call returns an error, yet the first entry's content replacement stays
applied and its PolicyChanged event was emitted. -/
def PartialApplyClaim (sps : List (String × ServedBusinessPolicy)) (org n1 n2 id1 id2 : String)
    (pe1 pe2 : BusinessPolicyEntry) (d1 d2 : BusinessPolicy) (now : Nat) : Prop :=
  (∃ e, (UpdatePolicies (twoEntryPM sps org n1 pe1 n2 pe2) org [(id1, ⟨d1⟩), (id2, ⟨d2⟩)] now).err = some e) ∧
  (∃ p1, genPolicyFromBusinessPolicy d1 id1 = Except.ok p1 ∧
    lookupA (orgMapOf (UpdatePolicies (twoEntryPM sps org n1 pe1 n2 pe2) org [(id1, ⟨d1⟩), (id2, ⟨d2⟩)] now).pm org) n1 =
      some ⟨p1, now, hashPolicy d1, []⟩ ∧
    (UpdatePolicies (twoEntryPM sps org n1 pe1 n2 pe2) org [(id1, ⟨d1⟩), (id2, ⟨d2⟩)] now).events =
      [EventMsg.policyChanged p1.headerName org (marshalPolicy p1)])

/-- C6: calling UpdatePolicies on an org the registry does not track
fails with a not-found error and leaves the state, the served table and
the event stream unchanged. -/
theorem update_policies_untracked_org (pm : PolicyManager) (org : String)
    (defs : List (String × ExchangeBusinessPolicy)) (now : Nat)
    (h : hasOrg pm org = false) :
    UpdatePolicies pm org defs now =
      ⟨pm, [], some ("org " ++ org ++ " not found in policy manager")⟩ := by
  simp [UpdatePolicies, h]

theorem update_policies_untracked_org_witness :
    hasOrg ⟨[], []⟩ "z" = false ∧
    UpdatePolicies ⟨[], []⟩ "z" [] 0 =
      ⟨⟨[], []⟩, [], some ("org " ++ "z" ++ " not found in policy manager")⟩ :=
  ⟨by decide, update_policies_untracked_org ⟨[], []⟩ "z" [] 0 (by decide)⟩

/-- C10: when UpdateEntry is handed a definition that fails validation or
conversion, it returns an error, but it has already overwritten the
entry's hash with the new hash, reset its updated timestamp and cleared
its service-policy sub-collection, while the stored internal policy keeps
its previous value. -/
theorem update_entry_partial_mutation_on_error (pe : BusinessPolicyEntry)
    (pol : BusinessPolicy) (polId newHash : String) (now : Nat)
    (h : pol.valid = false ∨ pol.convertible = false) :
    (∃ e, (UpdateEntry pe pol polId newHash now).2 = Except.error e) ∧
    (UpdateEntry pe pol polId newHash now).1.hash = newHash ∧
    (UpdateEntry pe pol polId newHash now).1.updated = now ∧
    (UpdateEntry pe pol polId newHash now).1.servicePolicies = [] ∧
    (UpdateEntry pe pol polId newHash now).1.policy = pe.policy := by
  rcases h with h | h
  · simp [UpdateEntry, h]
  · by_cases hv : pol.valid
    · simp [UpdateEntry, genPolicyFromBusinessPolicy, hv, h]
    · simp [UpdateEntry, hv]

theorem update_entry_partial_mutation_on_error_witness :
    (⟨"c2", false, true⟩ : BusinessPolicy).valid = false ∧
    ((∃ e, (UpdateEntry ⟨⟨"n", "c"⟩, 1, "h0", []⟩ ⟨"c2", false, true⟩ "o/p" "nh" 7).2 = Except.error e) ∧
     (UpdateEntry ⟨⟨"n", "c"⟩, 1, "h0", []⟩ ⟨"c2", false, true⟩ "o/p" "nh" 7).1.hash = "nh" ∧
     (UpdateEntry ⟨⟨"n", "c"⟩, 1, "h0", []⟩ ⟨"c2", false, true⟩ "o/p" "nh" 7).1.updated = 7 ∧
     (UpdateEntry ⟨⟨"n", "c"⟩, 1, "h0", []⟩ ⟨"c2", false, true⟩ "o/p" "nh" 7).1.servicePolicies = [] ∧
     (UpdateEntry ⟨⟨"n", "c"⟩, 1, "h0", []⟩ ⟨"c2", false, true⟩ "o/p" "nh" 7).1.policy =
       (⟨⟨"n", "c"⟩, 1, "h0", []⟩ : BusinessPolicyEntry).policy) :=
  ⟨rfl, update_entry_partial_mutation_on_error ⟨⟨"n", "c"⟩, 1, "h0", []⟩ ⟨"c2", false, true⟩
    "o/p" "nh" 7 (Or.inl rfl)⟩

/-- A filtering fold that appends one image per matching element collects
exactly the images of the filtered list. -/
theorem foldl_filter_map {α β : Type} (p : α → Bool) (g : α → β) :
    ∀ (l : List α) (acc : List β),
      l.foldl (fun acc x => if p x then acc ++ [g x] else acc) acc
        = acc ++ (l.filter p).map g := by
  intro l
  induction l with
  | nil => intro acc; simp
  | cons hd tl ih =>
    intro acc
    by_cases hc : p hd = true
    · simp [hc, ih, List.filter_cons]
    · simp [hc, ih, List.filter_cons]

/-- C8: GetServedNodeOrgs returns the node orgs of exactly the served
triplets matching the given org and the given name or the wildcard,
substituting the policy org for an empty node-org field. -/
theorem get_served_node_orgs_spec (pm : PolicyManager) (polOrg polName : String) :
    GetServedNodeOrgs pm polOrg polName = servedNodeOrgsSpec pm polOrg polName := by
  simpa [GetServedNodeOrgs, servedNodeOrgsSpec] using
    foldl_filter_map
      (fun kv : String × ServedBusinessPolicy =>
        kv.2.businessPolOrg == polOrg && (kv.2.businessPol == polName || kv.2.businessPol == "*"))
      (fun kv : String × ServedBusinessPolicy =>
        if kv.2.nodeOrg == "" then kv.2.businessPolOrg else kv.2.nodeOrg)
      pm.servedPolicies []

/-- C1: for a tracked org with a cached entry for a served policy,
UpdatePolicies re-ingesting that policy with unchanged content emits zero
events and leaves the stored hash unchanged, while re-ingesting it with
changed content emits exactly one PolicyChanged event carrying the
serialized new internal policy and updates the stored hash to the hash of
the new definition. -/
theorem update_policies_change_detection (sps : List (String × ServedBusinessPolicy))
    (org name polId : String) (pe : BusinessPolicyEntry) (newDef : BusinessPolicy) (now : Nat)
    (hid : GetId polId = name)
    (hserve : serveBusinessPolicy (singleEntryPM sps org name pe) org name = true)
    (hvalid : newDef.valid = true) (hconv : newDef.convertible = true) :
    ChangeDetectionClaim sps org name polId pe newDef now := by
  have hhas : hasOrg (singleEntryPM sps org name pe) org = true := by
    simp [hasOrg, singleEntryPM, lookupA]
  have hmap : orgMapOf (singleEntryPM sps org name pe) org = [(name, pe)] := by
    simp [orgMapOf, singleEntryPM, lookupA]
  have hprune :
      List.foldl (prunePolicyStep org [(polId, ⟨newDef⟩)])
        (singleEntryPM sps org name pe, ([] : List EventMsg)) [name] =
      (singleEntryPM sps org name pe, ([] : List EventMsg)) := by
    simp [prunePolicyStep, hserve, hid]
  constructor
  · intro hsame
    have hrec :
        reconcile org now [(polId, ⟨newDef⟩)] (singleEntryPM sps org name pe) =
          ⟨singleEntryPM sps org name pe, [], none⟩ := by
      simp [reconcile, hid, hserve, hmap, lookupA, hashPolicy, hsame]
    simp [UpdatePolicies, hhas, hmap, keysA, List.isEmpty, hprune, hrec]
  · intro hne
    have hsrv : (singleEntryPM sps org name pe).servedPolicies = sps := rfl
    have horg : (singleEntryPM sps org name pe).orgPolicies = [(org, [(name, pe)])] := rfl
    have hne2 : ¬pe.hash = newDef.content := by simpa [hashPolicy] using hne
    have hrec :
        reconcile org now [(polId, ⟨newDef⟩)] (singleEntryPM sps org name pe) =
          ⟨⟨sps, [(org, [(name, ⟨⟨polId, newDef.content⟩, now, hashPolicy newDef, []⟩)])]⟩,
           [EventMsg.policyChanged polId org (marshalPolicy ⟨polId, newDef.content⟩)], none⟩ := by
      simp [reconcile, hid, hserve, hmap, lookupA, insertA, UpdateEntry,
        genPolicyFromBusinessPolicy, hashPolicy, hvalid, hconv, hne2, hsrv, horg]
    refine ⟨⟨polId, newDef.content⟩, ?_, ?_, ?_, ?_⟩
    · simp [genPolicyFromBusinessPolicy, hconv]
    · simp [UpdatePolicies, hhas, hmap, keysA, List.isEmpty, hprune, hrec]
    · simp [UpdatePolicies, hhas, hmap, keysA, List.isEmpty, hprune, hrec, orgMapOf,
        lookupA, hashPolicy]
    · simp [UpdatePolicies, hhas, hmap, keysA, List.isEmpty, hprune, hrec]

theorem update_policies_change_detection_witness :
    GetId "o/p" = "p" ∧
    serveBusinessPolicy (singleEntryPM [("t1", ⟨"o", "p", ""⟩)] "o" "p" ⟨⟨"p", "v1"⟩, 0, "v1", []⟩) "o" "p" = true ∧
    ChangeDetectionClaim [("t1", ⟨"o", "p", ""⟩)] "o" "p" "o/p" ⟨⟨"p", "v1"⟩, 0, "v1", []⟩
      ⟨"v2", true, true⟩ 9 :=
  ⟨by decide, by decide,
   update_policies_change_detection [("t1", ⟨"o", "p", ""⟩)] "o" "p" "o/p"
     ⟨⟨"p", "v1"⟩, 0, "v1", []⟩ ⟨"v2", true, true⟩ 9 (by decide) (by decide) rfl rfl⟩

/-- C4: in the single-entry scenario, after UpdatePolicies returns, with
or without an error, the entry's stored content hash equals the hash of
the last ingested definition, and it differs from the previous stored
hash exactly when the ingested content changed. -/
theorem entry_hash_reflects_last_ingest (sps : List (String × ServedBusinessPolicy))
    (org name polId : String) (pe : BusinessPolicyEntry) (oldDef newDef : BusinessPolicy) (now : Nat)
    (hid : GetId polId = name)
    (hserve : serveBusinessPolicy (singleEntryPM sps org name pe) org name = true)
    (hold : pe.hash = hashPolicy oldDef) :
    HashReflectsClaim sps org name polId pe oldDef newDef now := by
  have hhas : hasOrg (singleEntryPM sps org name pe) org = true := by
    simp [hasOrg, singleEntryPM, lookupA]
  have hmap : orgMapOf (singleEntryPM sps org name pe) org = [(name, pe)] := by
    simp [orgMapOf, singleEntryPM, lookupA]
  have hprune :
      List.foldl (prunePolicyStep org [(polId, ⟨newDef⟩)])
        (singleEntryPM sps org name pe, ([] : List EventMsg)) [name] =
      (singleEntryPM sps org name pe, ([] : List EventMsg)) := by
    simp [prunePolicyStep, hserve, hid]
  have hsrv : (singleEntryPM sps org name pe).servedPolicies = sps := rfl
  have horg : (singleEntryPM sps org name pe).orgPolicies = [(org, [(name, pe)])] := rfl
  by_cases hc : pe.hash = hashPolicy newDef
  · have hrec :
        reconcile org now [(polId, ⟨newDef⟩)] (singleEntryPM sps org name pe) =
          ⟨singleEntryPM sps org name pe, [], none⟩ := by
      simp [reconcile, hid, hserve, hmap, lookupA, hashPolicy, hc]
    refine ⟨pe, ?_, hc, ?_⟩
    · simp [UpdatePolicies, hhas, hmap, keysA, List.isEmpty, hprune, hrec, lookupA]
    · exact iff_of_true rfl (hc.symm.trans hold)
  · have hne2 : ¬pe.hash = newDef.content := by simpa [hashPolicy] using hc
    by_cases hv : newDef.valid = true
    · by_cases hcv : newDef.convertible = true
      · have hrec :
            reconcile org now [(polId, ⟨newDef⟩)] (singleEntryPM sps org name pe) =
              ⟨⟨sps, [(org, [(name, ⟨⟨polId, newDef.content⟩, now, hashPolicy newDef, []⟩)])]⟩,
               [EventMsg.policyChanged polId org (marshalPolicy ⟨polId, newDef.content⟩)], none⟩ := by
          simp [reconcile, hid, hserve, hmap, lookupA, insertA, UpdateEntry,
            genPolicyFromBusinessPolicy, hashPolicy, hv, hcv, hne2, hsrv, horg]
        refine ⟨⟨⟨polId, newDef.content⟩, now, hashPolicy newDef, []⟩, ?_, rfl, ?_⟩
        · simp [UpdatePolicies, hhas, hmap, keysA, List.isEmpty, hprune, hrec, orgMapOf,
            lookupA, hashPolicy]
        · simp only [hold]
      · have hcv2 : newDef.convertible = false := by simpa using hcv
        have hrec :
            reconcile org now [(polId, ⟨newDef⟩)] (singleEntryPM sps org name pe) =
              ⟨⟨sps, [(org, [(name, ⟨pe.policy, now, hashPolicy newDef, []⟩)])]⟩, [],
               some "Failed to convert the business policy to internal policy format"⟩ := by
          simp [reconcile, hid, hserve, hmap, lookupA, insertA, UpdateEntry,
            genPolicyFromBusinessPolicy, hashPolicy, hv, hcv2, hne2, hsrv, horg]
        refine ⟨⟨pe.policy, now, hashPolicy newDef, []⟩, ?_, rfl, ?_⟩
        · simp [UpdatePolicies, hhas, hmap, keysA, List.isEmpty, hprune, hrec, orgMapOf,
            lookupA, hashPolicy]
        · simp only [hold]
    · have hv2 : newDef.valid = false := by simpa using hv
      have hrec :
          reconcile org now [(polId, ⟨newDef⟩)] (singleEntryPM sps org name pe) =
            ⟨⟨sps, [(org, [(name, ⟨pe.policy, now, hashPolicy newDef, []⟩)])]⟩, [],
             some "Failed to validate the business policy"⟩ := by
        simp [reconcile, hid, hserve, hmap, lookupA, insertA, UpdateEntry,
          hashPolicy, hv2, hne2, hsrv, horg]
      refine ⟨⟨pe.policy, now, hashPolicy newDef, []⟩, ?_, rfl, ?_⟩
      · simp [UpdatePolicies, hhas, hmap, keysA, List.isEmpty, hprune, hrec, orgMapOf,
          lookupA, hashPolicy]
      · simp only [hold]

theorem entry_hash_reflects_last_ingest_witness :
    GetId "o/p" = "p" ∧
    (⟨⟨"p", "v1"⟩, 0, "v1", []⟩ : BusinessPolicyEntry).hash = hashPolicy ⟨"v1", true, true⟩ ∧
    HashReflectsClaim [("t1", ⟨"o", "p", ""⟩)] "o" "p" "o/p" ⟨⟨"p", "v1"⟩, 0, "v1", []⟩
      ⟨"v1", true, true⟩ ⟨"v2", false, false⟩ 9 :=
  ⟨by decide, rfl,
   entry_hash_reflects_last_ingest [("t1", ⟨"o", "p", ""⟩)] "o" "p" "o/p"
     ⟨⟨"p", "v1"⟩, 0, "v1", []⟩ ⟨"v1", true, true⟩ ⟨"v2", false, false⟩ 9 (by decide) (by decide) rfl⟩

/-- C5: when UpdatePolicies processes two changed definitions of which
the second fails validation, the call returns an error, and the first
definition's entry replacement performed earlier in the same call remains
applied, with its PolicyChanged event already emitted (no rollback). -/
theorem update_policies_partial_apply (sps : List (String × ServedBusinessPolicy))
    (org n1 n2 id1 id2 : String) (pe1 pe2 : BusinessPolicyEntry) (d1 d2 : BusinessPolicy) (now : Nat)
    (hid1 : GetId id1 = n1) (hid2 : GetId id2 = n2) (hne12 : n1 ≠ n2)
    (hs1 : serveBusinessPolicy (twoEntryPM sps org n1 pe1 n2 pe2) org n1 = true)
    (hs2 : serveBusinessPolicy (twoEntryPM sps org n1 pe1 n2 pe2) org n2 = true)
    (hv1 : d1.valid = true) (hc1 : d1.convertible = true)
    (hch1 : pe1.hash ≠ hashPolicy d1) (hch2 : pe2.hash ≠ hashPolicy d2)
    (hbad : d2.valid = false) :
    PartialApplyClaim sps org n1 n2 id1 id2 pe1 pe2 d1 d2 now := by
  have hsrv : (twoEntryPM sps org n1 pe1 n2 pe2).servedPolicies = sps := rfl
  have horg : (twoEntryPM sps org n1 pe1 n2 pe2).orgPolicies = [(org, [(n1, pe1), (n2, pe2)])] := rfl
  have hs1a : (sps.any fun kv =>
      kv.2.businessPolOrg == org && (kv.2.businessPol == n1 || kv.2.businessPol == "*")) = true := by
    simpa [serveBusinessPolicy, twoEntryPM] using hs1
  have hs2a : (sps.any fun kv =>
      kv.2.businessPolOrg == org && (kv.2.businessPol == n2 || kv.2.businessPol == "*")) = true := by
    simpa [serveBusinessPolicy, twoEntryPM] using hs2
  have hnn : (n1 == n2) = false := by
    simpa using hne12
  have hhas : hasOrg (twoEntryPM sps org n1 pe1 n2 pe2) org = true := by
    simp [hasOrg, twoEntryPM, lookupA]
  have hmap : orgMapOf (twoEntryPM sps org n1 pe1 n2 pe2) org = [(n1, pe1), (n2, pe2)] := by
    simp [orgMapOf, twoEntryPM, lookupA]
  have hch1a : ¬pe1.hash = d1.content := by simpa [hashPolicy] using hch1
  have hch2a : ¬pe2.hash = d2.content := by simpa [hashPolicy] using hch2
  have hprune :
      List.foldl (prunePolicyStep org [(id1, ⟨d1⟩), (id2, ⟨d2⟩)])
        (twoEntryPM sps org n1 pe1 n2 pe2, ([] : List EventMsg)) [n1, n2] =
      (twoEntryPM sps org n1 pe1 n2 pe2, ([] : List EventMsg)) := by
    simp [prunePolicyStep, serveBusinessPolicy, hsrv, hs1a, hs2a, hid1, hid2]
  have hrec :
      reconcile org now [(id1, ⟨d1⟩), (id2, ⟨d2⟩)] (twoEntryPM sps org n1 pe1 n2 pe2) =
        ⟨⟨sps, [(org, [(n1, ⟨⟨id1, d1.content⟩, now, hashPolicy d1, []⟩),
                       (n2, ⟨pe2.policy, now, hashPolicy d2, []⟩)])]⟩,
         [EventMsg.policyChanged id1 org (marshalPolicy ⟨id1, d1.content⟩)],
         some "Failed to validate the business policy"⟩ := by
    simp [reconcile, hid1, hid2, serveBusinessPolicy, hsrv, hs1a, hs2a, hmap, orgMapOf,
      lookupA, insertA, UpdateEntry, genPolicyFromBusinessPolicy, hashPolicy,
      hv1, hc1, hbad, hch1a, hch2a, hnn, horg]
  refine ⟨⟨"Failed to validate the business policy", ?_⟩,
          ⟨id1, d1.content⟩, ?_, ?_, ?_⟩
  · simp [UpdatePolicies, hhas, hmap, keysA, List.isEmpty, hprune, hrec]
  · simp [genPolicyFromBusinessPolicy, hc1]
  · simp [UpdatePolicies, hhas, hmap, keysA, List.isEmpty, hprune, hrec, orgMapOf,
      lookupA, hashPolicy]
  · simp [UpdatePolicies, hhas, hmap, keysA, List.isEmpty, hprune, hrec]

theorem update_policies_partial_apply_witness :
    GetId "o/a" = "a" ∧ GetId "o/b" = "b" ∧
    PartialApplyClaim [("t", ⟨"o", "*", ""⟩)] "o" "a" "b" "o/a" "o/b"
      ⟨⟨"a", "x1"⟩, 0, "x1", []⟩ ⟨⟨"b", "x2"⟩, 0, "x2", []⟩
      ⟨"y1", true, true⟩ ⟨"y2", false, true⟩ 5 :=
  ⟨by decide, by decide,
   update_policies_partial_apply [("t", ⟨"o", "*", ""⟩)] "o" "a" "b" "o/a" "o/b"
     ⟨⟨"a", "x1"⟩, 0, "x1", []⟩ ⟨⟨"b", "x2"⟩, 0, "x2", []⟩
     ⟨"y1", true, true⟩ ⟨"y2", false, true⟩ 5
     (by decide) (by decide) (by decide) (by decide) (by decide) rfl rfl
     (by decide) (by decide) rfl⟩

/-- Membership in the key set is the same as a successful lookup. -/
theorem lookupA_mem_keysA {α : Type} : ∀ (m : List (String × α)) (k : String),
    k ∈ keysA m ↔ ∃ v, lookupA m k = some v := by
  intro m
  induction m with
  | nil => intro k; simp [keysA, lookupA]
  | cons p rest ih =>
    intro k
    have hcons : keysA (p :: rest) = p.1 :: keysA rest := rfl
    by_cases h : p.1 = k
    · simp [hcons, lookupA, h]
    · have hb : (p.1 == k) = false := by simpa using h
      have h2 : ¬k = p.1 := fun hh => h hh.symm
      simp [hcons, lookupA, hb, h2, ih]

/-- A successful lookup is preserved by appending bindings on the right. -/
theorem lookupA_append_some {α : Type} : ∀ (m l : List (String × α)) (k : String) (v : α),
    lookupA m k = some v → lookupA (m ++ l) k = some v := by
  intro m
  induction m with
  | nil => intro l k v h; simp [lookupA] at h
  | cons p rest ih =>
    intro l k v h
    by_cases hb : (p.1 == k) = true
    · simp [lookupA, hb] at h ⊢; exact h
    · have hb2 : (p.1 == k) = false := by simpa using hb
      simp [lookupA, hb2] at h ⊢
      exact ih l k v h

/-- A failed lookup defers to the appended bindings. -/
theorem lookupA_append_none {α : Type} : ∀ (m l : List (String × α)) (k : String),
    lookupA m k = none → lookupA (m ++ l) k = lookupA l k := by
  intro m
  induction m with
  | nil => intro l k _; simp
  | cons p rest ih =>
    intro l k h
    by_cases hb : (p.1 == k) = true
    · simp [lookupA, hb] at h
    · have hb2 : (p.1 == k) = false := by simpa using hb
      simp [lookupA, hb2] at h ⊢
      exact ih l k h

/-- Erasing a key removes its binding. -/
theorem lookupA_eraseA_self {α : Type} : ∀ (m : List (String × α)) (k : String),
    lookupA (eraseA m k) k = none := by
  intro m
  induction m with
  | nil => intro k; simp [eraseA, lookupA]
  | cons p rest ih =>
    intro k
    by_cases hk : p.1 = k
    · simp [eraseA, hk, ih]
    · have hb : (p.1 == k) = false := by simpa using hk
      simp [eraseA, lookupA, hb, ih]

/-- Erasing one key leaves lookups of other keys unchanged. -/
theorem lookupA_eraseA_ne {α : Type} : ∀ (m : List (String × α)) (k x : String),
    x ≠ k → lookupA (eraseA m k) x = lookupA m x := by
  intro m
  induction m with
  | nil => intro k x _; simp [eraseA]
  | cons p rest ih =>
    intro k x hx
    by_cases hk : p.1 = k
    · have hpx : p.1 ≠ x := fun hh => hx (hh ▸ hk ▸ rfl)
      have hb : (p.1 == x) = false := by simpa using hpx
      have hbk : (p.1 == k) = true := by simpa using hk
      simp [eraseA, lookupA, hbk, hb, ih _ _ hx]
    · have hbk : (p.1 == k) = false := by simpa using hk
      simp [eraseA, lookupA, hbk, ih _ _ hx]

/-- The org-creation loop never touches the served-triplet table. -/
theorem addFold_served : ∀ (tris : List (String × ServedBusinessPolicy)) (acc : PolicyManager),
    (tris.foldl addOrgStep acc).servedPolicies = acc.servedPolicies := by
  intro tris
  induction tris with
  | nil => intro acc; rfl
  | cons kv rest ih =>
    intro acc
    rw [List.foldl_cons]
    rw [ih (addOrgStep acc kv)]
    simp only [addOrgStep]
    split <;> rfl

/-- The org-creation loop preserves every tracked org's policy map. -/
theorem addFold_lookup_some : ∀ (tris : List (String × ServedBusinessPolicy))
    (acc : PolicyManager) (org : String) (v : List (String × BusinessPolicyEntry)),
    lookupA acc.orgPolicies org = some v →
    lookupA (tris.foldl addOrgStep acc).orgPolicies org = some v := by
  intro tris
  induction tris with
  | nil => intro acc org v h; exact h
  | cons kv rest ih =>
    intro acc org v h
    rw [List.foldl_cons]
    refine ih (addOrgStep acc kv) org v ?_
    simp only [addOrgStep]
    split
    · exact h
    · exact lookupA_append_some _ _ _ _ h

/-- The org-creation loop leaves an org untracked when no new triplet
names it. -/
theorem addFold_lookup_not_named : ∀ (tris : List (String × ServedBusinessPolicy))
    (acc : PolicyManager) (org : String),
    lookupA acc.orgPolicies org = none →
    (tris.any fun kv => kv.2.businessPolOrg == org) = false →
    lookupA (tris.foldl addOrgStep acc).orgPolicies org = none := by
  intro tris
  induction tris with
  | nil => intro acc org h _; exact h
  | cons kv rest ih =>
    intro acc org h hany
    have hany2 : ((kv.2.businessPolOrg == org) || rest.any fun kv => kv.2.businessPolOrg == org) = false := by
      simpa only [List.any_cons] using hany
    rcases Bool.or_eq_false_iff.mp hany2 with ⟨hb, hrest⟩
    rw [List.foldl_cons]
    have hstep : lookupA (addOrgStep acc kv).orgPolicies org = none := by
      simp only [addOrgStep]
      split
      · exact h
      · rw [lookupA_append_none _ _ _ h]
        simp [lookupA, hb]
    exact ih _ org hstep hrest

/-- The org-creation loop gives an untracked org an empty policy map when
some new triplet names it. -/
theorem addFold_lookup_named : ∀ (tris : List (String × ServedBusinessPolicy))
    (acc : PolicyManager) (org : String),
    lookupA acc.orgPolicies org = none →
    (tris.any fun kv => kv.2.businessPolOrg == org) = true →
    lookupA (tris.foldl addOrgStep acc).orgPolicies org = some [] := by
  intro tris
  induction tris with
  | nil => intro acc org _ hany; simp at hany
  | cons kv rest ih =>
    intro acc org h hany
    have hany2 : ((kv.2.businessPolOrg == org) || rest.any fun kv => kv.2.businessPolOrg == org) = true := by
      simpa only [List.any_cons] using hany
    rw [List.foldl_cons]
    by_cases ho : kv.2.businessPolOrg = org
    · have hstep : lookupA (addOrgStep acc kv).orgPolicies org = some [] := by
        simp only [addOrgStep, hasOrg, ho, h]
        simp [lookupA_append_none _ _ _ h, lookupA]
      exact addFold_lookup_some rest _ org [] hstep
    · have hb : (kv.2.businessPolOrg == org) = false := by simpa using ho
      have hrest : (rest.any fun kv => kv.2.businessPolOrg == org) = true := by
        rcases Bool.or_eq_true_iff.mp hany2 with hh | hh
        · exact absurd hh (by simp [hb])
        · exact hh
      have hstep : lookupA (addOrgStep acc kv).orgPolicies org = none := by
        simp only [addOrgStep]
        split
        · exact h
        · rw [lookupA_append_none _ _ _ h]
          simp [lookupA, hb]
      exact ih _ org hstep hrest

/-- The pruning loop never touches the served-triplet table. -/
theorem pruneFold_served : ∀ (L : List String) (st : PolicyManager × List EventMsg),
    (L.foldl pruneOrgStep st).1.servedPolicies = st.1.servedPolicies := by
  intro L
  induction L with
  | nil => intro st; rfl
  | cons a rest ih =>
    intro st
    rw [List.foldl_cons, ih (pruneOrgStep st a)]
    simp only [pruneOrgStep, deleteOrg]
    split <;> rfl

/-- Whether an org is served is untouched by one pruning step. -/
theorem pruneOrgStep_serveOrg (st : PolicyManager × List EventMsg) (a x : String) :
    serveOrg (pruneOrgStep st a).1 x = serveOrg st.1 x := by
  simp only [pruneOrgStep, deleteOrg, serveOrg]
  split <;> rfl

/-- The pruning loop leaves a still-served org's policy map unchanged. -/
theorem pruneFold_lookup_served : ∀ (L : List String) (st : PolicyManager × List EventMsg)
    (org : String), serveOrg st.1 org = true →
    lookupA (L.foldl pruneOrgStep st).1.orgPolicies org = lookupA st.1.orgPolicies org := by
  intro L
  induction L with
  | nil => intro st org _; rfl
  | cons a rest ih =>
    intro st org hsv
    rw [List.foldl_cons]
    have hsv2 : serveOrg (pruneOrgStep st a).1 org = true := by
      rw [pruneOrgStep_serveOrg]; exact hsv
    rw [ih (pruneOrgStep st a) org hsv2]
    by_cases hsa : serveOrg st.1 a = true
    · simp [pruneOrgStep, hsa]
    · have hax : org ≠ a := fun hh => hsa (hh ▸ hsv)
      have hsa2 : serveOrg st.1 a = false := by simpa using hsa
      simp [pruneOrgStep, hsa2, deleteOrg, lookupA_eraseA_ne _ _ _ hax]

/-- The pruning loop cannot resurrect an org that is already gone. -/
theorem pruneFold_lookup_none : ∀ (L : List String) (st : PolicyManager × List EventMsg)
    (org : String), lookupA st.1.orgPolicies org = none →
    lookupA (L.foldl pruneOrgStep st).1.orgPolicies org = none := by
  intro L
  induction L with
  | nil => intro st org h; exact h
  | cons a rest ih =>
    intro st org h
    rw [List.foldl_cons]
    refine ih (pruneOrgStep st a) org ?_
    simp only [pruneOrgStep, deleteOrg]
    split
    · exact h
    · by_cases hax : org = a
      · subst hax; exact lookupA_eraseA_self _ _
      · rw [lookupA_eraseA_ne _ _ _ hax]; exact h

/-- The pruning loop removes every visited org that is not served. -/
theorem pruneFold_lookup_kill : ∀ (L : List String) (st : PolicyManager × List EventMsg)
    (org : String), org ∈ L → serveOrg st.1 org = false →
    lookupA (L.foldl pruneOrgStep st).1.orgPolicies org = none := by
  intro L
  induction L with
  | nil => intro st org h; simp at h
  | cons a rest ih =>
    intro st org hmem hsv
    rw [List.foldl_cons]
    by_cases hax : org = a
    · subst hax
      have hkill : lookupA (pruneOrgStep st org).1.orgPolicies org = none := by
        simp [pruneOrgStep, hsv, deleteOrg, lookupA_eraseA_self]
      exact pruneFold_lookup_none rest _ org hkill
    · have hmem2 : org ∈ rest := by
        rcases List.mem_cons.mp hmem with h | h
        · exact absurd h hax
        · exact h
      have hsv2 : serveOrg (pruneOrgStep st a).1 org = false := by
        rw [pruneOrgStep_serveOrg]; exact hsv
      exact ih (pruneOrgStep st a) org hmem2 hsv2

/-- The served check is the any-scan of the served-triplet table. -/
theorem serveOrg_any (pm : PolicyManager) (x : String) :
    serveOrg pm x = pm.servedPolicies.any fun kv => kv.2.businessPolOrg == x := rfl

/-- Tracking an org is membership in the org key set. -/
theorem hasOrg_iff_mem (pm : PolicyManager) (o : String) :
    hasOrg pm o = true ↔ o ∈ keysA pm.orgPolicies := by
  simp only [hasOrg]
  rw [Option.isSome_iff_exists]
  exact (lookupA_mem_keysA _ _).symm

/-- A triplet scan for an org succeeds exactly when the org is named. -/
theorem any_org_iff (tris : List (String × ServedBusinessPolicy)) (org : String) :
    (tris.any fun kv => kv.2.businessPolOrg == org) = true ↔
      org ∈ tris.map fun kv => kv.2.businessPolOrg := by
  rw [List.any_eq_true]
  constructor
  · rintro ⟨kv, hkv, hp⟩
    exact List.mem_map.mpr ⟨kv, hkv, by simpa using hp⟩
  · intro h
    obtain ⟨kv, hkv, he⟩ := List.mem_map.mp h
    exact ⟨kv, hkv, by simp [he]⟩

/-- Deleted events for the org that emitted them all pass the filter. -/
theorem filter_deletedFor_map_self (x : String) :
    ∀ ps : List (String × BusinessPolicyEntry),
    (ps.map fun kv => EventMsg.policyDeleted kv.2.policy.headerName x (marshalPolicy kv.2.policy)).filter (deletedFor x) =
      ps.map fun kv => EventMsg.policyDeleted kv.2.policy.headerName x (marshalPolicy kv.2.policy) := by
  intro ps
  induction ps with
  | nil => rfl
  | cons kv rest ih => simp [deletedFor, List.filter_cons, ih]

/-- Deleted events for one org never pass another org's filter. -/
theorem filter_deletedFor_map_other (x a : String) (h : a ≠ x) :
    ∀ ps : List (String × BusinessPolicyEntry),
    (ps.map fun kv => EventMsg.policyDeleted kv.2.policy.headerName a (marshalPolicy kv.2.policy)).filter (deletedFor x) = [] := by
  intro ps
  have hb : (a == x) = false := by simpa using h
  induction ps with
  | nil => rfl
  | cons kv rest ih => simp [deletedFor, List.filter_cons, hb, ih]

/-- One pruning step adds no deleted events for an org that is already
absent, and keeps the org absent. -/
theorem pruneFold_events_none : ∀ (L : List String) (st : PolicyManager × List EventMsg)
    (x : String), lookupA st.1.orgPolicies x = none →
    ((L.foldl pruneOrgStep st).2).filter (deletedFor x) = st.2.filter (deletedFor x) := by
  intro L
  induction L with
  | nil => intro st x _; rfl
  | cons a rest ih =>
    intro st x h
    rw [List.foldl_cons]
    by_cases hsa : serveOrg st.1 a = true
    · have hstep : pruneOrgStep st a = st := by simp [pruneOrgStep, hsa]
      rw [hstep]
      exact ih st x h
    · have hsa2 : serveOrg st.1 a = false := by simpa using hsa
      have hstep : pruneOrgStep st a =
          ((deleteOrg st.1 a).1, st.2 ++ (deleteOrg st.1 a).2) := by
        simp [pruneOrgStep, hsa2]
      rw [hstep]
      have hlook : lookupA ((deleteOrg st.1 a).1, st.2 ++ (deleteOrg st.1 a).2).1.orgPolicies x = none := by
        show lookupA (eraseA st.1.orgPolicies a) x = none
        by_cases hax : x = a
        · subst hax; exact lookupA_eraseA_self _ _
        · rw [lookupA_eraseA_ne _ _ _ hax]; exact h
      rw [ih _ x hlook, List.filter_append]
      have hevs : ((deleteOrg st.1 a).2).filter (deletedFor x) = [] := by
        by_cases hax : a = x
        · subst hax
          have : (deleteOrg st.1 a).2 = [] := by simp [deleteOrg, h]
          rw [this]; rfl
        · cases hl : lookupA st.1.orgPolicies a with
          | none =>
            have : (deleteOrg st.1 a).2 = [] := by simp [deleteOrg, hl]
            rw [this]; rfl
          | some ps =>
            have : (deleteOrg st.1 a).2 =
                ps.map fun kv => EventMsg.policyDeleted kv.2.policy.headerName a (marshalPolicy kv.2.policy) := by
              simp [deleteOrg, hl]
            rw [this]
            exact filter_deletedFor_map_other x a hax ps
      rw [hevs]
      simp

/-- The pruning loop, visiting an unserved cached org, emits exactly one
deleted event per policy cached under it. -/
theorem pruneFold_events_cascade : ∀ (L : List String) (st : PolicyManager × List EventMsg)
    (x : String) (ps : List (String × BusinessPolicyEntry)),
    lookupA st.1.orgPolicies x = some ps → serveOrg st.1 x = false → x ∈ L →
    ((L.foldl pruneOrgStep st).2).filter (deletedFor x) =
      st.2.filter (deletedFor x) ++
        ps.map fun kv => EventMsg.policyDeleted kv.2.policy.headerName x (marshalPolicy kv.2.policy) := by
  intro L
  induction L with
  | nil => intro st x ps _ _ hmem; simp at hmem
  | cons a rest ih =>
    intro st x ps hx hsv hmem
    rw [List.foldl_cons]
    by_cases hax : a = x
    · subst hax
      have hstep : pruneOrgStep st a =
          ((deleteOrg st.1 a).1, st.2 ++ (deleteOrg st.1 a).2) := by
        simp [pruneOrgStep, hsv]
      rw [hstep]
      have hevs : (deleteOrg st.1 a).2 =
          ps.map fun kv => EventMsg.policyDeleted kv.2.policy.headerName a (marshalPolicy kv.2.policy) := by
        simp [deleteOrg, hx]
      have hlook : lookupA ((deleteOrg st.1 a).1, st.2 ++ (deleteOrg st.1 a).2).1.orgPolicies a = none := by
        show lookupA (eraseA st.1.orgPolicies a) a = none
        exact lookupA_eraseA_self _ _
      rw [pruneFold_events_none rest _ a hlook]
      rw [List.filter_append, hevs, filter_deletedFor_map_self]
    · have hmem2 : x ∈ rest := by
        rcases List.mem_cons.mp hmem with h | h
        · exact absurd h.symm hax
        · exact h
      by_cases hsa : serveOrg st.1 a = true
      · have hstep : pruneOrgStep st a = st := by simp [pruneOrgStep, hsa]
        rw [hstep]
        exact ih st x ps hx hsv hmem2
      · have hsa2 : serveOrg st.1 a = false := by simpa using hsa
        have hstep : pruneOrgStep st a =
            ((deleteOrg st.1 a).1, st.2 ++ (deleteOrg st.1 a).2) := by
          simp [pruneOrgStep, hsa2]
        rw [hstep]
        have hxa : x ≠ a := fun hh => hax hh.symm
        have hx2 : lookupA ((deleteOrg st.1 a).1, st.2 ++ (deleteOrg st.1 a).2).1.orgPolicies x = some ps := by
          show lookupA (eraseA st.1.orgPolicies a) x = some ps
          rw [lookupA_eraseA_ne _ _ _ hxa]; exact hx
        have hsv2 : serveOrg ((deleteOrg st.1 a).1, st.2 ++ (deleteOrg st.1 a).2).1 x = false := hsv
        rw [ih _ x ps hx2 hsv2 hmem2, List.filter_append]
        have hevs : ((deleteOrg st.1 a).2).filter (deletedFor x) = [] := by
          cases hl : lookupA st.1.orgPolicies a with
          | none =>
            have : (deleteOrg st.1 a).2 = [] := by simp [deleteOrg, hl]
            rw [this]; rfl
          | some qs =>
            have : (deleteOrg st.1 a).2 =
                qs.map fun kv => EventMsg.policyDeleted kv.2.policy.headerName a (marshalPolicy kv.2.policy) := by
              simp [deleteOrg, hl]
            rw [this]
            exact filter_deletedFor_map_other x a hax qs
        rw [hevs]
        simp

/-- The unfolded shape of a served-set replacement that is not the
empty-to-empty no-op. -/
theorem setCurrent_unfold (pm : PolicyManager) (tris : List (String × ServedBusinessPolicy))
    (h : (pm.servedPolicies.isEmpty && tris.isEmpty) = false) :
    SetCurrentBusinessPolicies pm tris =
      (keysA (tris.foldl addOrgStep ({pm with servedPolicies := tris} : PolicyManager)).orgPolicies).foldl
        pruneOrgStep (tris.foldl addOrgStep ({pm with servedPolicies := tris} : PolicyManager), []) := by
  simp [SetCurrentBusinessPolicies, h]

/-- A non-degenerate served-set replacement installs the new table. -/
theorem setCurrent_served (pm : PolicyManager) (tris : List (String × ServedBusinessPolicy))
    (h : (pm.servedPolicies.isEmpty && tris.isEmpty) = false) :
    (SetCurrentBusinessPolicies pm tris).1.servedPolicies = tris := by
  rw [setCurrent_unfold pm tris h]
  rw [pruneFold_served]
  show (tris.foldl addOrgStep ({pm with servedPolicies := tris} : PolicyManager)).servedPolicies = tris
  rw [addFold_served]

/-- After a non-degenerate served-set replacement, the tracked orgs are
exactly the orgs named by some new triplet. -/
theorem setCurrent_mem_keys (pm : PolicyManager) (tris : List (String × ServedBusinessPolicy))
    (h : (pm.servedPolicies.isEmpty && tris.isEmpty) = false) (org : String) :
    org ∈ keysA (SetCurrentBusinessPolicies pm tris).1.orgPolicies ↔
      (tris.any fun kv => kv.2.businessPolOrg == org) = true := by
  rw [setCurrent_unfold pm tris h]
  generalize hq : tris.foldl addOrgStep ({pm with servedPolicies := tris} : PolicyManager) = pm2
  have hserved2 : pm2.servedPolicies = tris := by rw [← hq, addFold_served]
  constructor
  · intro hmem
    obtain ⟨v, hv⟩ := (lookupA_mem_keysA _ _).mp hmem
    cases hany : tris.any fun kv => kv.2.businessPolOrg == org with
    | true => rfl
    | false =>
      exfalso
      have hsv : serveOrg pm2 org = false := by rw [serveOrg_any, hserved2]; exact hany
      cases hl : lookupA pm2.orgPolicies org with
      | none =>
        have hend := pruneFold_lookup_none (keysA pm2.orgPolicies) (pm2, []) org hl
        rw [hend] at hv
        exact Option.noConfusion hv
      | some w =>
        have hmem2 : org ∈ keysA pm2.orgPolicies := (lookupA_mem_keysA _ _).mpr ⟨w, hl⟩
        have hend := pruneFold_lookup_kill (keysA pm2.orgPolicies) (pm2, []) org hmem2 hsv
        rw [hend] at hv
        exact Option.noConfusion hv
  · intro hany
    have hsv : serveOrg pm2 org = true := by rw [serveOrg_any, hserved2]; exact hany
    have hpre := pruneFold_lookup_served (keysA pm2.orgPolicies) (pm2, []) org hsv
    refine (lookupA_mem_keysA _ _).mpr ?_
    cases hl : lookupA ({pm with servedPolicies := tris} : PolicyManager).orgPolicies org with
    | some v =>
      have hsome := addFold_lookup_some tris _ org v hl
      rw [hq] at hsome
      exact ⟨v, by rw [hpre]; exact hsome⟩
    | none =>
      have hsome := addFold_lookup_named tris _ org hl hany
      rw [hq] at hsome
      exact ⟨[], by rw [hpre]; exact hsome⟩

/-- A newly appearing served org comes out of a replacement tracked with
an empty policy map. -/
theorem setCurrent_new_org (pm : PolicyManager) (tris : List (String × ServedBusinessPolicy))
    (h : (pm.servedPolicies.isEmpty && tris.isEmpty) = false) (org : String)
    (hnone : lookupA pm.orgPolicies org = none)
    (hany : (tris.any fun kv => kv.2.businessPolOrg == org) = true) :
    lookupA (SetCurrentBusinessPolicies pm tris).1.orgPolicies org = some [] := by
  rw [setCurrent_unfold pm tris h]
  generalize hq : tris.foldl addOrgStep ({pm with servedPolicies := tris} : PolicyManager) = pm2
  have hserved2 : pm2.servedPolicies = tris := by rw [← hq, addFold_served]
  have hsome := addFold_lookup_named tris ({pm with servedPolicies := tris} : PolicyManager) org hnone hany
  rw [hq] at hsome
  have hsv : serveOrg pm2 org = true := by rw [serveOrg_any, hserved2]; exact hany
  rw [pruneFold_lookup_served (keysA pm2.orgPolicies) (pm2, []) org hsv]
  exact hsome

/-- The org-creation loop is the identity when every named org is already
tracked. -/
theorem addFold_id : ∀ (tris : List (String × ServedBusinessPolicy)) (acc : PolicyManager),
    (∀ kv ∈ tris, hasOrg acc kv.2.businessPolOrg = true) →
    tris.foldl addOrgStep acc = acc := by
  intro tris
  induction tris with
  | nil => intro acc _; rfl
  | cons kv rest ih =>
    intro acc h
    rw [List.foldl_cons]
    rw [show addOrgStep acc kv = acc from by simp [addOrgStep, h kv (List.mem_cons_self _ _)]]
    exact ih acc fun x hx => h x (List.mem_cons_of_mem _ hx)

/-- The pruning loop is the identity when every visited org is served. -/
theorem pruneFold_id : ∀ (L : List String) (st : PolicyManager × List EventMsg),
    (∀ o ∈ L, serveOrg st.1 o = true) → L.foldl pruneOrgStep st = st := by
  intro L
  induction L with
  | nil => intro st _; rfl
  | cons a rest ih =>
    intro st h
    rw [List.foldl_cons]
    rw [show pruneOrgStep st a = st from by simp [pruneOrgStep, h a (List.mem_cons_self _ _)]]
    exact ih st fun o ho => h o (List.mem_cons_of_mem _ ho)

/-- Replacing the served set with a table the registry already reflects
changes nothing and emits nothing. -/
theorem setCurrent_noop (q : PolicyManager) (tris : List (String × ServedBusinessPolicy))
    (hserved : q.servedPolicies = tris)
    (hkeys : ∀ org, org ∈ keysA q.orgPolicies →
      (tris.any fun kv => kv.2.businessPolOrg == org) = true)
    (hhas : ∀ kv ∈ tris, hasOrg q kv.2.businessPolOrg = true) :
    SetCurrentBusinessPolicies q tris = ({q with servedPolicies := tris}, []) := by
  have hq : ({q with servedPolicies := tris} : PolicyManager) = q := by
    rw [← hserved]
  by_cases hc : (q.servedPolicies.isEmpty && tris.isEmpty) = true
  · simp [SetCurrentBusinessPolicies, hc, hq]
  · have hc2 : (q.servedPolicies.isEmpty && tris.isEmpty) = false := by simpa using hc
    have haddid : tris.foldl addOrgStep ({q with servedPolicies := tris} : PolicyManager) =
        ({q with servedPolicies := tris} : PolicyManager) := by
      refine addFold_id tris _ fun kv hkv => ?_
      exact hhas kv hkv
    have hpruneid :
        (keysA ({q with servedPolicies := tris} : PolicyManager).orgPolicies).foldl pruneOrgStep
          (({q with servedPolicies := tris} : PolicyManager), []) =
        (({q with servedPolicies := tris} : PolicyManager), []) := by
      refine pruneFold_id _ _ fun o ho => ?_
      exact hkeys o ho
    rw [setCurrent_unfold q tris hc2, haddid, hpruneid]

/-- C2: after a served-set replacement, the tracked-org key set equals
exactly the set of policy orgs named in the new triplets; every newly
appearing org gets an empty policy map, and every previously tracked org
no longer named is removed. The hypothesis is the reachable-state
invariant that an empty served table tracks no orgs, which rules out the
degenerate empty-to-empty early return. -/
theorem set_current_key_set (pm : PolicyManager) (tris : List (String × ServedBusinessPolicy))
    (hinv : pm.servedPolicies = [] → pm.orgPolicies = []) :
    (∀ org, org ∈ keysA (SetCurrentBusinessPolicies pm tris).1.orgPolicies ↔
       org ∈ tris.map fun kv => kv.2.businessPolOrg) ∧
    (∀ org, lookupA pm.orgPolicies org = none →
       org ∈ (tris.map fun kv => kv.2.businessPolOrg) →
       lookupA (SetCurrentBusinessPolicies pm tris).1.orgPolicies org = some []) := by
  by_cases hc : (pm.servedPolicies.isEmpty && tris.isEmpty) = true
  · obtain ⟨h1, h2⟩ := Bool.and_eq_true_iff.mp hc
    have hs : pm.servedPolicies = [] := by simpa using h1
    have ht : tris = [] := by simpa using h2
    have ho : pm.orgPolicies = [] := hinv hs
    have hres : SetCurrentBusinessPolicies pm tris = (pm, []) := by
      simp [SetCurrentBusinessPolicies, hc]
    constructor
    · intro org
      rw [hres]
      simp [ho, ht, keysA]
    · intro org _ hmem
      rw [ht] at hmem
      simp at hmem
  · have hc2 : (pm.servedPolicies.isEmpty && tris.isEmpty) = false := by simpa using hc
    constructor
    · intro org
      exact (setCurrent_mem_keys pm tris hc2 org).trans (any_org_iff tris org)
    · intro org hnone hmem
      exact setCurrent_new_org pm tris hc2 org hnone ((any_org_iff tris org).mpr hmem)

theorem set_current_key_set_witness :
    ((⟨[], []⟩ : PolicyManager).servedPolicies = [] → (⟨[], []⟩ : PolicyManager).orgPolicies = []) ∧
    ((∀ org, org ∈ keysA (SetCurrentBusinessPolicies ⟨[], []⟩ [("t", ⟨"a", "p", "n"⟩)]).1.orgPolicies ↔
        org ∈ [("t", (⟨"a", "p", "n"⟩ : ServedBusinessPolicy))].map fun kv => kv.2.businessPolOrg) ∧
     (∀ org, lookupA (⟨[], []⟩ : PolicyManager).orgPolicies org = none →
        org ∈ ([("t", (⟨"a", "p", "n"⟩ : ServedBusinessPolicy))].map fun kv => kv.2.businessPolOrg) →
        lookupA (SetCurrentBusinessPolicies ⟨[], []⟩ [("t", ⟨"a", "p", "n"⟩)]).1.orgPolicies org = some [])) :=
  ⟨fun _ => rfl, set_current_key_set ⟨[], []⟩ [("t", ⟨"a", "p", "n"⟩)] (fun _ => rfl)⟩

/-- C3: a served-set replacement that drops every triplet of an org with
cached policies emits, in that one call, exactly one PolicyDeleted event
per policy cached under that org, and removes the org from the tracked
set. The invariant hypothesis rules out the degenerate empty-to-empty
early return. -/
theorem set_current_deletion_cascade (pm : PolicyManager)
    (tris : List (String × ServedBusinessPolicy)) (X : String)
    (ps : List (String × BusinessPolicyEntry))
    (hX : lookupA pm.orgPolicies X = some ps)
    (hns : (tris.any fun kv => kv.2.businessPolOrg == X) = false)
    (hinv : pm.servedPolicies = [] → pm.orgPolicies = []) :
    ((SetCurrentBusinessPolicies pm tris).2.filter (deletedFor X) =
      ps.map fun kv => EventMsg.policyDeleted kv.2.policy.headerName X (marshalPolicy kv.2.policy)) ∧
    X ∉ keysA (SetCurrentBusinessPolicies pm tris).1.orgPolicies := by
  have hone : pm.orgPolicies ≠ [] := by
    intro hh
    rw [hh] at hX
    simp [lookupA] at hX
  have hsne : pm.servedPolicies ≠ [] := fun hh => hone (hinv hh)
  have hc2 : (pm.servedPolicies.isEmpty && tris.isEmpty) = false := by
    have hfalse : pm.servedPolicies.isEmpty = false := by
      cases hsp : pm.servedPolicies with
      | nil => exact absurd hsp hsne
      | cons a l => rfl
    simp [hfalse]
  constructor
  · rw [setCurrent_unfold pm tris hc2]
    generalize hq : tris.foldl addOrgStep ({pm with servedPolicies := tris} : PolicyManager) = pm2
    have hserved2 : pm2.servedPolicies = tris := by rw [← hq, addFold_served]
    have h2 : lookupA pm2.orgPolicies X = some ps := by
      rw [← hq]; exact addFold_lookup_some tris _ X ps hX
    have hsv : serveOrg pm2 X = false := by rw [serveOrg_any, hserved2]; exact hns
    have hmemL : X ∈ keysA pm2.orgPolicies := (lookupA_mem_keysA _ _).mpr ⟨ps, h2⟩
    have hcas := pruneFold_events_cascade (keysA pm2.orgPolicies) (pm2, []) X ps h2 hsv hmemL
    simpa using hcas
  · rw [setCurrent_unfold pm tris hc2]
    generalize hq : tris.foldl addOrgStep ({pm with servedPolicies := tris} : PolicyManager) = pm2
    have hserved2 : pm2.servedPolicies = tris := by rw [← hq, addFold_served]
    have h2 : lookupA pm2.orgPolicies X = some ps := by
      rw [← hq]; exact addFold_lookup_some tris _ X ps hX
    have hsv : serveOrg pm2 X = false := by rw [serveOrg_any, hserved2]; exact hns
    have hmemL : X ∈ keysA pm2.orgPolicies := (lookupA_mem_keysA _ _).mpr ⟨ps, h2⟩
    intro hmem
    obtain ⟨v, hv⟩ := (lookupA_mem_keysA _ _).mp hmem
    have hkill := pruneFold_lookup_kill (keysA pm2.orgPolicies) (pm2, []) X hmemL hsv
    rw [hkill] at hv
    exact Option.noConfusion hv

theorem set_current_deletion_cascade_witness :
    lookupA (⟨[("t0", ⟨"x", "p", ""⟩)], [("x", [("p", ⟨⟨"p", "c"⟩, 0, "c", []⟩)])]⟩ : PolicyManager).orgPolicies "x" =
      some [("p", ⟨⟨"p", "c"⟩, 0, "c", []⟩)] ∧
    (((SetCurrentBusinessPolicies ⟨[("t0", ⟨"x", "p", ""⟩)], [("x", [("p", ⟨⟨"p", "c"⟩, 0, "c", []⟩)])]⟩ []).2.filter (deletedFor "x") =
        [("p", (⟨⟨"p", "c"⟩, 0, "c", []⟩ : BusinessPolicyEntry))].map
          fun kv => EventMsg.policyDeleted kv.2.policy.headerName "x" (marshalPolicy kv.2.policy)) ∧
      "x" ∉ keysA (SetCurrentBusinessPolicies ⟨[("t0", ⟨"x", "p", ""⟩)], [("x", [("p", ⟨⟨"p", "c"⟩, 0, "c", []⟩)])]⟩ []).1.orgPolicies) :=
  ⟨by decide,
   set_current_deletion_cascade ⟨[("t0", ⟨"x", "p", ""⟩)], [("x", [("p", ⟨⟨"p", "c"⟩, 0, "c", []⟩)])]⟩ [] "x"
     [("p", ⟨⟨"p", "c"⟩, 0, "c", []⟩)] (by decide) (by decide)
     (fun hh => absurd hh (by decide))⟩

/-- C7: replacing the served set a second time with the identical triplet
set leaves the tracked-org key set as it was after the first call and
emits no events during the second call. -/
theorem set_current_idempotent (pm : PolicyManager)
    (tris : List (String × ServedBusinessPolicy)) :
    keysA (SetCurrentBusinessPolicies (SetCurrentBusinessPolicies pm tris).1 tris).1.orgPolicies =
      keysA (SetCurrentBusinessPolicies pm tris).1.orgPolicies ∧
    (SetCurrentBusinessPolicies (SetCurrentBusinessPolicies pm tris).1 tris).2 = [] := by
  by_cases hc : (pm.servedPolicies.isEmpty && tris.isEmpty) = true
  · have hres : SetCurrentBusinessPolicies pm tris = (pm, []) := by
      simp [SetCurrentBusinessPolicies, hc]
    simp [hres]
  · have hc2 : (pm.servedPolicies.isEmpty && tris.isEmpty) = false := by simpa using hc
    have hserved1 := setCurrent_served pm tris hc2
    have hmem := setCurrent_mem_keys pm tris hc2
    have hkeys : ∀ org, org ∈ keysA (SetCurrentBusinessPolicies pm tris).1.orgPolicies →
        (tris.any fun kv => kv.2.businessPolOrg == org) = true :=
      fun org h => (hmem org).mp h
    have hhas : ∀ kv ∈ tris, hasOrg (SetCurrentBusinessPolicies pm tris).1 kv.2.businessPolOrg = true := by
      intro kv hkv
      refine (hasOrg_iff_mem _ _).mpr ?_
      refine (hmem _).mpr ?_
      exact List.any_eq_true.mpr ⟨kv, hkv, by simp⟩
    rw [setCurrent_noop (SetCurrentBusinessPolicies pm tris).1 tris hserved1 hkeys hhas]
    exact ⟨rfl, rfl⟩

end AgreementBot
